import Mathlib

/-!
Verification of the Commentific hierarchical commenting backend.

The definitions below are a shallow embedding of the Go source
(`service/comment_service.go`, the `postgres` repository in the same file,
`models/comment.go`) and of the SQL schema and triggers
(`001_create_comments_table.up.sql`).  The backing database is modelled as
in-memory lists of rows; SQL `WHERE` clauses become `List.filter`,
`ORDER BY` becomes an insertion sort with the corresponding comparison,
`UPDATE` becomes `List.map`, and fallible operations return `Except`.
Timestamps are modelled as natural numbers (seconds).
-/

namespace Commentific

/-! ### Generic insertion sort (model of SQL ORDER BY) -/

/-- Insert an element into a list ordered by the boolean comparison `le`. -/
def insertLe {α : Type} (le : α → α → Bool) (a : α) : List α → List α
  | [] => [a]
  | b :: bs => if le a b then a :: b :: bs else b :: insertLe le a bs

/-- Insertion sort by the boolean comparison `le`. -/
def sortLe {α : Type} (le : α → α → Bool) : List α → List α
  | [] => []
  | a :: as => insertLe le a (sortLe le as)

theorem mem_insertLe {α : Type} (le : α → α → Bool) (a x : α) :
    ∀ l : List α, x ∈ insertLe le a l ↔ x = a ∨ x ∈ l := by
  intro l
  induction l with
  | nil => simp [insertLe]
  | cons b bs ih =>
    cases h : le a b with
    | true => simp [insertLe, h]
    | false =>
      simp only [insertLe, h]
      simp only [Bool.false_eq_true, if_false, List.mem_cons, ih]
      tauto

theorem mem_sortLe {α : Type} (le : α → α → Bool) (x : α) :
    ∀ l : List α, x ∈ sortLe le l ↔ x ∈ l := by
  intro l
  induction l with
  | nil => simp [sortLe]
  | cons a as ih =>
    simp only [sortLe, mem_insertLe, List.mem_cons, ih]

theorem pairwise_insertLe {α : Type} (le : α → α → Bool)
    (htot : ∀ a b, le a b = true ∨ le b a = true)
    (htrans : ∀ a b c, le a b = true → le b c = true → le a c = true)
    (a : α) : ∀ l : List α,
    List.Pairwise (fun x y => le x y = true) l →
    List.Pairwise (fun x y => le x y = true) (insertLe le a l) := by
  intro l
  induction l with
  | nil => intro _; simp [insertLe]
  | cons b bs ih =>
    intro hp
    rcases List.pairwise_cons.mp hp with ⟨hb, hbs⟩
    cases h : le a b with
    | true =>
      have : insertLe le a (b :: bs) = a :: b :: bs := by simp [insertLe, h]
      rw [this]
      refine List.pairwise_cons.mpr ⟨?_, hp⟩
      intro x hx
      rcases List.mem_cons.mp hx with rfl | hx
      · exact h
      · exact htrans a b x h (hb x hx)
    | false =>
      have : insertLe le a (b :: bs) = b :: insertLe le a bs := by simp [insertLe, h]
      rw [this]
      refine List.pairwise_cons.mpr ⟨?_, ih hbs⟩
      intro x hx
      rcases (mem_insertLe le a x bs).mp hx with hxa | hx
      · rw [hxa]
        rcases htot a b with h' | h'
        · simp [h] at h'
        · exact h'
      · exact hb x hx

theorem pairwise_sortLe {α : Type} (le : α → α → Bool)
    (htot : ∀ a b, le a b = true ∨ le b a = true)
    (htrans : ∀ a b c, le a b = true → le b c = true → le a c = true) :
    ∀ l : List α, List.Pairwise (fun x y => le x y = true) (sortLe le l) := by
  intro l
  induction l with
  | nil => simp [sortLe]
  | cons a as ih => exact pairwise_insertLe le htot htrans a (sortLe le as) ih

/-! ### Path splitting (model of Go `strings.Split(path, ".")`) -/

/-- Split a character list on the separator character, keeping empty pieces
    (the behaviour of Go `strings.Split` for a one-character separator). -/
def splitChars (sep : Char) : List Char → List (List Char)
  | [] => [[]]
  | c :: cs =>
    if c = sep then [] :: splitChars sep cs
    else
      match splitChars sep cs with
      | [] => [[c]]
      | r :: rs => (c :: r) :: rs

theorem splitChars_cons_sep (sep : Char) (cs : List Char) :
    splitChars sep (sep :: cs) = [] :: splitChars sep cs := by
  simp [splitChars]

theorem splitChars_cons_ne (sep c : Char) (cs : List Char) (h : ¬ c = sep)
    (r : List Char) (rs : List (List Char)) (hr : splitChars sep cs = r :: rs) :
    splitChars sep (c :: cs) = (c :: r) :: rs := by
  simp [splitChars, h, hr]

theorem splitChars_ne_nil (sep : Char) : ∀ l : List Char, splitChars sep l ≠ [] := by
  intro l
  induction l with
  | nil => simp [splitChars]
  | cons c cs ih =>
    by_cases h : c = sep
    · subst h
      rw [splitChars_cons_sep]
      simp
    · cases hr : splitChars sep cs with
      | nil => exact absurd hr ih
      | cons r rs =>
        rw [splitChars_cons_ne sep c cs h r rs hr]
        simp

theorem splitChars_of_not_mem (sep : Char) :
    ∀ l : List Char, sep ∉ l → splitChars sep l = [l] := by
  intro l
  induction l with
  | nil => intro _; rfl
  | cons c cs ih =>
    intro h
    have hc : ¬ c = sep := fun hc => h (hc ▸ List.mem_cons_self c cs)
    have hcs : sep ∉ cs := fun hm => h (List.mem_cons_of_mem c hm)
    rw [splitChars_cons_ne sep c cs hc cs [] (ih hcs)]

theorem splitChars_append_sep (sep : Char) (b : List Char) (hb : sep ∉ b) :
    ∀ a : List Char, splitChars sep (a ++ sep :: b) = splitChars sep a ++ [b] := by
  intro a
  induction a with
  | nil =>
    rw [List.nil_append, splitChars_cons_sep, splitChars_of_not_mem sep b hb]
    rfl
  | cons c cs ih =>
    by_cases h : c = sep
    · subst h
      rw [List.cons_append, splitChars_cons_sep, ih, splitChars_cons_sep]
      rfl
    · cases hr : splitChars sep cs with
      | nil => exact absurd hr (splitChars_ne_nil sep cs)
      | cons r rs =>
        have hr2 : splitChars sep (cs ++ sep :: b) = r :: (rs ++ [b]) := by
          rw [ih, hr]; rfl
        rw [List.cons_append, splitChars_cons_ne sep c _ h r (rs ++ [b]) hr2,
          splitChars_cons_ne sep c cs h r rs hr]
        rfl

/-- `splitPath` models Go `strings.Split(path, ".")`: the materialized path
    decoded into the ordered list of IDs. -/
def splitPath (s : String) : List String :=
  (splitChars '.' s.data).map (fun l => String.mk l)

/-! ### Data model (`models/comment.go`, SQL schema) -/

/-- A comment row (`models.Comment`).  Timestamps are seconds as naturals;
    `depth` is a natural per the schema constraint `CHECK (depth >= 0)`.
    Vote tallies are integers (Go `int64`). -/
structure Comment where
  id : String
  rootID : String
  parentID : Option String
  userID : String
  content : String
  mediaURL : Option String
  linkURL : Option String
  upvotes : Int
  downvotes : Int
  score : Int
  depth : Nat
  path : String
  isDeleted : Bool
  isEdited : Bool
  editCount : Nat
  originalContent : Option String
  createdAt : Nat
  updatedAt : Nat
  contentUpdatedAt : Option Nat
deriving DecidableEq, Repr

/-- A vote row (`models.Vote`); timestamps elided (no claim concerns them). -/
structure Vote where
  id : String
  commentID : String
  userID : String
  voteType : Int
deriving DecidableEq, Repr

/-- `models.VoteRequest`: note it carries no comment ID. -/
structure VoteRequest where
  userID : String
  voteType : Int
deriving DecidableEq, Repr

/-- `models.CommentFilter`. -/
structure CommentFilter where
  rootID : Option String := none
  userID : Option String := none
  parentID : Option String := none
  maxDepth : Option Nat := none
  sortBy : String := ""
  sortOrder : String := ""
  limit : Option Nat := none
  offset : Option Nat := none
  isEdited : Option Bool := none
  minEdits : Option Nat := none
  maxEdits : Option Nat := none
deriving DecidableEq, Repr

/-- `models.CommentTree`: a comment with its children. -/
inductive CommentTree where
  | node (comment : Comment) (children : List CommentTree)
deriving Repr

/-- The backing database: the `comments` and `votes` tables. -/
structure Store where
  comments : List Comment
  votes : List Vote
deriving DecidableEq, Repr

instance exceptDecidableEq {ε α : Type} [DecidableEq ε] [DecidableEq α] :
    DecidableEq (Except ε α) := fun a b =>
  match a, b with
  | Except.ok x, Except.ok y =>
    if h : x = y then isTrue (by rw [h])
    else isFalse (by intro hc; cases hc; exact h rfl)
  | Except.error x, Except.error y =>
    if h : x = y then isTrue (by rw [h])
    else isFalse (by intro hc; cases hc; exact h rfl)
  | Except.ok _, Except.error _ => isFalse (by intro hc; cases hc)
  | Except.error _, Except.ok _ => isFalse (by intro hc; cases hc)

/-! ### Point reads (`GetCommentByID`) -/

/-- `PostgresRepository.GetCommentByID`:
    `SELECT ... FROM comments WHERE id = $1 AND NOT is_deleted`,
    `sql.ErrNoRows` becoming the "comment not found" error. -/
def getCommentByID (db : List Comment) (id : String) : Except String Comment :=
  match db.find? (fun c => c.id = id && !c.isDeleted) with
  | some c => Except.ok c
  | none => Except.error "comment not found"

/-! ### Filtered listing (`GetComments`) -/

/-- The WHERE clause built by `PostgresRepository.GetComments`: always
    `NOT is_deleted`, plus the optional `root_id`/`user_id`/`parent_id`/
    `depth <=` conditions.  The filter's `IsEdited`/`MinEdits`/`MaxEdits`
    fields are never read by the Go code. -/
def matchesGetComments (f : CommentFilter) (c : Comment) : Bool :=
  !c.isDeleted
    && (match f.rootID with | some r => c.rootID = r | none => true)
    && (match f.userID with | some u => c.userID = u | none => true)
    && (match f.parentID with | some p => c.parentID = some p | none => true)
    && (match f.maxDepth with | some d => c.depth ≤ d | none => true)

/-- The sort column actually used by `GetComments`: only `score`,
    `created_at` and `updated_at` are accepted by the switch; anything else
    (including `content_updated_at` and `edit_count`) falls back to
    `created_at`. -/
def sortColumn (s : String) : String :=
  if s = "score" || s = "created_at" || s = "updated_at" then s else "created_at"

/-- The value of the sort column for a comment. -/
def sortValue (col : String) (c : Comment) : Int :=
  if col = "score" then c.score
  else if col = "updated_at" then (c.updatedAt : Int)
  else (c.createdAt : Int)

/-- The comparison realised by `ORDER BY {sortBy} {sortOrder}` in
    `GetComments`: ascending only when `sort_order = "asc"`, else
    descending. -/
def commentLe (f : CommentFilter) (a b : Comment) : Bool :=
  if f.sortOrder = "asc" then
    decide (sortValue (sortColumn f.sortBy) a ≤ sortValue (sortColumn f.sortBy) b)
  else
    decide (sortValue (sortColumn f.sortBy) b ≤ sortValue (sortColumn f.sortBy) a)

/-- `PostgresRepository.GetComments`: filter, order, then paginate
    (SQL applies OFFSET before LIMIT regardless of clause order). -/
def getComments (f : CommentFilter) (db : List Comment) : List Comment :=
  let rows := sortLe (commentLe f) (db.filter (matchesGetComments f))
  let rows := match f.offset with | some o => rows.drop o | none => rows
  match f.limit with | some l => rows.take l | none => rows

/-! ### Tree assembly (`GetCommentTree`, `buildCommentTree`) -/

/-- One node of the reassembled forest: the children of a node are exactly
    the fetched comments whose `parent_id` equals its ID, in fetch order
    (in Go this is the map-of-pointers construction in
    `buildCommentTree`).  `fuel` bounds the recursion depth; since every
    parent chain among the fetched comments is shorter than the list, fuel
    equal to the list length reproduces the Go result. -/
def buildNode (comments : List Comment) : Nat → Comment → CommentTree
  | 0, c => CommentTree.node c []
  | fuel + 1, c =>
    CommentTree.node c
      ((comments.filter (fun d => d.parentID = some c.id)).map
        (buildNode comments fuel))

/-- `PostgresRepository.buildCommentTree`: only comments with a nil
    `parent_id` are appended to `roots`; a comment whose parent is not in
    the map is attached nowhere. -/
def buildCommentTree (comments : List Comment) : List CommentTree :=
  (comments.filter (fun c => c.parentID.isNone)).map
    (buildNode comments comments.length)

/-- `PostgresRepository.GetCommentTree`: fetch the flat filtered list for
    the root up to `maxDepth`, then reassemble. -/
def getCommentTreeRepo (db : List Comment) (rootID : String) (maxDepth : Nat)
    (sortBy : String) : List CommentTree :=
  buildCommentTree
    (getComments { rootID := some rootID, maxDepth := some maxDepth, sortBy := sortBy } db)

/-- All comments appearing anywhere in a tree. -/
def treeMembers : CommentTree → List Comment
  | CommentTree.node c children =>
    c :: (children.attach.map (fun x => treeMembers x.val)).flatten
decreasing_by
  cases x with
  | mk t ht =>
    have h1 := List.sizeOf_lt_of_mem ht
    simp only [CommentTree.node.sizeOf_spec]
    omega

/-- All comments appearing anywhere in a forest. -/
def forestMembers (ts : List CommentTree) : List Comment :=
  (ts.map treeMembers).flatten

/-! ### Materialized path query (`GetCommentPath`) -/

/-- Depth comparison used by `ORDER BY depth`. -/
def depthLe (a b : Comment) : Bool :=
  decide (a.depth ≤ b.depth)

/-- `PostgresRepository.GetCommentPath`: resolve the comment, split its
    materialized path, then
    `SELECT ... WHERE id = ANY($1) AND NOT is_deleted ORDER BY depth`.
    (The `len(pathParts) == 0` branch of the Go code is kept although
    `strings.Split` never returns an empty slice.) -/
def getCommentPath (db : List Comment) (commentID : String) :
    Except String (List Comment) :=
  match getCommentByID db commentID with
  | Except.error e => Except.error e
  | Except.ok comment =>
    let pathParts := splitPath comment.path
    if pathParts = [] then Except.ok [comment]
    else
      Except.ok (sortLe depthLe
        (db.filter (fun c => pathParts.contains c.id && !c.isDeleted)))

/-! ### Creation (`PostgresRepository.CreateComment`) -/

/-- `PostgresRepository.CreateComment`: assign the ID (`genID` stands for
    `uuid.New().String()` when the incoming ID is empty), then for a reply
    fetch the parent, set `depth = parent.depth + 1` and
    `path = parent.path + "." + id`, and reject a parent from a different
    root; a root-level comment gets `depth = 0`, `path = id`.  Returns the
    fully populated comment as inserted. -/
def createCommentRepo (db : List Comment) (genID : String) (comment : Comment) :
    Except String Comment :=
  let cid := if comment.id = "" then genID else comment.id
  match comment.parentID with
  | some pid =>
    match getCommentByID db pid with
    | Except.error _ => Except.error "failed to get parent comment"
    | Except.ok parent =>
      let populated := { comment with
        id := cid
        depth := parent.depth + 1
        path := parent.path ++ "." ++ cid }
      if parent.rootID ≠ comment.rootID then
        Except.error "parent comment belongs to different root"
      else Except.ok populated
  | none => Except.ok { comment with id := cid, depth := 0, path := cid }

/-! ### Soft delete (`DeleteComment`) -/

/-- Rows hit by the soft-delete UPDATE:
    `WHERE id = $2 AND user_id = $3 AND NOT is_deleted`. -/
def deleteHits (db : List Comment) (id userID : String) : List Comment :=
  db.filter (fun c => c.id = id && c.userID = userID && !c.isDeleted)

/-- `PostgresRepository.DeleteComment`: one UPDATE setting
    `is_deleted = true` on the matching live row owned by `userID`; when
    zero rows are affected the single combined error
    "comment not found, already deleted, or user not authorized" is
    returned. -/
def deleteCommentRepo (db : List Comment) (id userID : String) :
    Except String (List Comment) :=
  if (deleteHits db id userID).length = 0 then
    Except.error "comment not found, already deleted, or user not authorized"
  else
    Except.ok (db.map (fun c =>
      if c.id = id && c.userID = userID && !c.isDeleted then
        { c with isDeleted := true }
      else c))

/-- `CommentService.DeleteComment`: required-ID checks, then delegate. -/
def deleteCommentService (db : List Comment) (id userID : String) :
    Except String (List Comment) :=
  if id = "" then Except.error "comment ID is required"
  else if userID = "" then Except.error "user ID is required"
  else deleteCommentRepo db id userID

/-! ### Votes and score aggregation -/

/-- Count of stored votes of one type for a comment
    (`SELECT COUNT(*) FROM votes WHERE comment_id = ... AND vote_type = ...`). -/
def countVotes (votes : List Vote) (cid : String) (vt : Int) : Nat :=
  (votes.filter (fun v => v.commentID = cid && v.voteType = vt)).length

/-- The `update_comment_score` trigger body (also the body of
    `UpdateCommentScores`): first set `upvotes`/`downvotes` to the live
    counts, then set `score = upvotes - downvotes`, for the one comment. -/
def recomputeScore (st : Store) (cid : String) : Store :=
  let step1 := st.comments.map (fun c =>
    if c.id = cid then
      { c with
        upvotes := (countVotes st.votes cid 1 : Int)
        downvotes := (countVotes st.votes cid (-1) : Int) }
    else c)
  let step2 := step1.map (fun c =>
    if c.id = cid then { c with score := c.upvotes - c.downvotes } else c)
  { st with comments := step2 }

/-- The vote-row upsert of `CreateVote`:
    `INSERT ... ON CONFLICT (comment_id, user_id) DO UPDATE SET vote_type`. -/
def upsertVote (votes : List Vote) (v : Vote) : List Vote :=
  if votes.any (fun w => w.commentID = v.commentID && w.userID = v.userID) then
    votes.map (fun w =>
      if w.commentID = v.commentID && w.userID = v.userID then
        { w with voteType := v.voteType }
      else w)
  else votes ++ [v]

/-- `PostgresRepository.CreateVote` followed by the insert/update trigger:
    upsert the row, then recompute the comment's tallies. -/
def createVote (st : Store) (v : Vote) : Store :=
  recomputeScore { st with votes := upsertVote st.votes v } v.commentID

/-- `PostgresRepository.UpdateVote`: builds a vote and delegates to
    `CreateVote`. -/
def updateVote (st : Store) (commentID userID : String) (voteType : Int) : Store :=
  createVote st { id := "", commentID := commentID, userID := userID, voteType := voteType }

/-- `PostgresRepository.DeleteVote` followed by the delete trigger:
    `DELETE FROM votes WHERE comment_id = $1 AND user_id = $2`, then
    recompute the comment's tallies (no error when no row matched). -/
def deleteVote (st : Store) (commentID userID : String) : Store :=
  recomputeScore
    { st with votes := st.votes.filter (fun w =>
        !(w.commentID = commentID && w.userID = userID)) }
    commentID

/-- `PostgresRepository.GetUserVote`: `sql.ErrNoRows` is mapped to a nil
    vote with a nil error. -/
def getUserVote (votes : List Vote) (commentID userID : String) :
    Except String (Option Vote) :=
  match votes.find? (fun v => v.commentID = commentID && v.userID = userID) with
  | some v => Except.ok (some v)
  | none => Except.ok none

/-- One vote mutation addressed at the comment `cid`: a cast
    (`UpdateVote`) or a removal (`DeleteVote`). -/
inductive VoteOp where
  | cast (userID : String) (voteType : Int)
  | remove (userID : String)

/-- Apply one vote operation on comment `cid` to the store. -/
def applyVoteOp (cid : String) (st : Store) : VoteOp → Store
  | VoteOp.cast uid vt => updateVote st cid uid vt
  | VoteOp.remove uid => deleteVote st cid uid

/-! ### Batch voting (`CommentService.BatchVoteComments`) -/

/-- The per-vote loop body of `BatchVoteComments`, run against the
    transactional handle: reject a vote whose `UserID` differs from the
    caller, else apply it via `repo.UpdateVote(ctx, "", vote.UserID,
    vote.VoteType)` — note the comment ID passed is the empty string, since
    `models.VoteRequest` carries no comment ID.  An error rolls the
    transaction back, so the caller observes the original store. -/
def applyBatch (st : Store) (userID : String) : List VoteRequest → Except String Store
  | [] => Except.ok st
  | v :: rest =>
    if v.userID ≠ userID then Except.error "user ID mismatch in vote request"
    else applyBatch (updateVote st "" v.userID v.voteType) userID rest

/-- `CommentService.BatchVoteComments`: required user ID, batch-size cap of
    100, then the transactional loop. -/
def batchVoteComments (st : Store) (votes : List VoteRequest) (userID : String) :
    Except String Store :=
  if userID = "" then Except.error "user ID is required"
  else if votes.length > 100 then Except.error "too many votes in batch, maximum is 100"
  else applyBatch st userID votes

/-! ### Top comments (`GetTopComments`) -/

/-- `ORDER BY score DESC, created_at DESC`. -/
def topLe (a b : Comment) : Bool :=
  decide (b.score < a.score ∨ (a.score = b.score ∧ b.createdAt ≤ a.createdAt))

/-- Whether a comment falls in the creation-time window selected by
    `timeRange` in `PostgresRepository.GetTopComments`
    (`created_at > NOW() - INTERVAL ...`); any other string, including
    `"all"`, adds no time clause. -/
def inTimeWindow (now : Nat) (timeRange : String) (c : Comment) : Bool :=
  if timeRange = "hour" then decide (now < c.createdAt + 3600)
  else if timeRange = "day" then decide (now < c.createdAt + 86400)
  else if timeRange = "week" then decide (now < c.createdAt + 604800)
  else if timeRange = "month" then decide (now < c.createdAt + 2592000)
  else true

/-- `PostgresRepository.GetTopComments`: non-deleted comments of the root
    inside the window, by score then recency, capped at `limit`. -/
def getTopCommentsRepo (db : List Comment) (now : Nat) (rootID : String)
    (limit : Int) (timeRange : String) : List Comment :=
  (sortLe topLe (db.filter (fun c =>
    c.rootID = rootID && !c.isDeleted && inTimeWindow now timeRange c))).take limit.toNat

/-- `CommentService.GetTopComments`: required root ID, then normalise
    `limit` (non-positive becomes 10, above 100 clamped to 100) and
    `timeRange` (anything outside hour/day/week/month/all becomes "day")
    before delegating to the repository. -/
def getTopCommentsService (db : List Comment) (now : Nat) (rootID : String)
    (limit : Int) (timeRange : String) : Except String (List Comment) :=
  if rootID = "" then Except.error "root ID is required"
  else
    let limit1 := if limit ≤ 0 then 10 else limit
    let limit2 := if limit1 > 100 then 100 else limit1
    let validRange :=
      timeRange = "hour" || timeRange = "day" || timeRange = "week" ||
        timeRange = "month" || timeRange = "all"
    let range := if validRange then timeRange else "day"
    Except.ok (getTopCommentsRepo db now rootID limit2 range)

/-! ### Spec-side normalisation values (for comparison with the service) -/

/-- The limit normalisation stated by the claim for `GetTopComments`. -/
def specTopLimit (l : Int) : Int :=
  if l ≤ 0 then 10 else if l > 100 then 100 else l

/-- The time-range normalisation stated by the claim for `GetTopComments`. -/
def specTopRange (tr : String) : String :=
  if tr = "hour" ∨ tr = "day" ∨ tr = "week" ∨ tr = "month" ∨ tr = "all" then tr
  else "day"

/-! ### Concrete fixtures used in counterexamples and witnesses -/

/-- A comment with every field at its zero value; concrete rows below
    override the relevant fields. -/
def baseComment : Comment :=
  { id := "", rootID := "", parentID := none, userID := "", content := "",
    mediaURL := none, linkURL := none, upvotes := 0, downvotes := 0,
    score := 0, depth := 0, path := "", isDeleted := false, isEdited := false,
    editCount := 0, originalContent := none, createdAt := 0, updatedAt := 0,
    contentUpdatedAt := none }

/-! ### Claim C9: GetTopComments normalisation -/

/-- Claim C9: at the service layer, `GetTopComments` replaces a
    non-positive limit by 10, clamps a limit above 100 to 100, and replaces
    any time range outside hour/day/week/month/all by "day" (not rejecting
    it and not treating it as all-time) before delegating to the store. -/
theorem c9_top_comments_normalisation (db : List Comment) (now : Nat)
    (rootID : String) (limit : Int) (timeRange : String) (h : rootID ≠ "") :
    getTopCommentsService db now rootID limit timeRange =
      Except.ok (getTopCommentsRepo db now rootID (specTopLimit limit)
        (specTopRange timeRange)) ∧
    (1 ≤ specTopLimit limit ∧ specTopLimit limit ≤ 100) ∧
    (timeRange ≠ "hour" → timeRange ≠ "day" → timeRange ≠ "week" →
      timeRange ≠ "month" → timeRange ≠ "all" →
      specTopRange timeRange = "day") := by
  refine ⟨?_, ⟨?_, ?_⟩, ?_⟩
  · have hl : (if (if limit ≤ 0 then 10 else limit) > 100 then 100
        else (if limit ≤ 0 then 10 else limit)) = specTopLimit limit := by
      unfold specTopLimit
      split_ifs <;> omega
    have hr : (if (timeRange = "hour" || timeRange = "day" ||
          timeRange = "week" || timeRange = "month" || timeRange = "all") = true
        then timeRange else "day") = specTopRange timeRange := by
      unfold specTopRange
      split_ifs with h1 h2 <;> simp_all
    simp only [getTopCommentsService, if_neg h]
    rw [hl, hr]
  · unfold specTopLimit
    split_ifs <;> omega
  · unfold specTopLimit
    split_ifs <;> omega
  · intro h1 h2 h3 h4 h5
    unfold specTopRange
    rw [if_neg (by tauto)]

/-- Witness for C9 at a concrete input. -/
theorem c9_witness :
    getTopCommentsService [] 0 "r" 0 "bogus" =
      Except.ok (getTopCommentsRepo [] 0 "r" 10 "day") := by
  have h := c9_top_comments_normalisation [] 0 "r" 0 "bogus" (by decide)
  have h1 : specTopLimit 0 = 10 := by decide
  have h2 : specTopRange "bogus" = "day" := by decide
  rw [h1, h2] at h
  exact h.1

/-! ### Claim C10: vote absence is not an error -/

/-- Claim C10: `GetUserVote` returns a nil vote with no error when the user
    has no vote on the comment, while `GetCommentByID` treats absence as an
    error — at the store's public interface vote absence is not an error
    condition, unlike comment absence. -/
theorem c10_vote_absence_not_error :
    (∀ (votes : List Vote) (cid uid : String),
        (∀ v ∈ votes, ¬(v.commentID = cid ∧ v.userID = uid)) →
        getUserVote votes cid uid = Except.ok none) ∧
    (∀ (db : List Comment) (id : String),
        (∀ c ∈ db, ¬(c.id = id ∧ c.isDeleted = false)) →
        getCommentByID db id = Except.error "comment not found") := by
  constructor
  · intro votes cid uid h
    unfold getUserVote
    have hn : votes.find? (fun v => v.commentID = cid && v.userID = uid) = none := by
      rw [List.find?_eq_none]
      intro v hv
      simp only [Bool.and_eq_true, decide_eq_true_eq]
      exact fun hc => h v hv ⟨hc.1, hc.2⟩
    rw [hn]
  · intro db id h
    unfold getCommentByID
    have hn : db.find? (fun c => c.id = id && !c.isDeleted) = none := by
      rw [List.find?_eq_none]
      intro c hc
      simp only [Bool.and_eq_true, decide_eq_true_eq, Bool.not_eq_true']
      exact fun hc2 => h c hc ⟨hc2.1, hc2.2⟩
    rw [hn]

/-- Witness for C10 at a concrete input. -/
theorem c10_witness :
    getUserVote [] "c" "u" = Except.ok none ∧
    getCommentByID [] "c" = Except.error "comment not found" :=
  ⟨c10_vote_absence_not_error.1 [] "c" "u" (by simp),
   c10_vote_absence_not_error.2 [] "c" (by simp)⟩

/-! ### Claim C6: batch voting (code bug) -/

/-- The comment used in the C6 evaluation. -/
def c6c : Comment :=
  { baseComment with id := "c1", rootID := "r", userID := "owner" }

/-- The store state after the C6 batch: the vote row references the empty
    comment ID, and no comment was touched. -/
def c6after : Store :=
  { comments := [c6c],
    votes := [{ id := "", commentID := "", userID := "u1", voteType := 1 }] }

/-- Claim C6, evaluated at the failing input: `BatchVoteComments` does
    reject oversized batches and caller/vote user mismatches, but a valid
    vote is applied with the comment ID `""` — `models.VoteRequest` carries
    no comment ID and the service passes the empty string to `UpdateVote` —
    so no requested vote ever reaches a target comment (against PostgreSQL
    the empty string fails the uuid cast and every non-empty batch
    errors). -/
theorem c6_batch_vote_empty_comment_id :
    batchVoteComments { comments := [c6c], votes := [] }
        [{ userID := "u1", voteType := 1 }] "u1" = Except.ok c6after ∧
    c6after.comments = [c6c] ∧
    (∀ v ∈ c6after.votes, v.commentID = "") ∧
    batchVoteComments { comments := [c6c], votes := [] }
        (List.replicate 101 { userID := "u1", voteType := 1 }) "u1" =
      Except.error "too many votes in batch, maximum is 100" ∧
    batchVoteComments { comments := [c6c], votes := [] }
        [{ userID := "u2", voteType := 1 }] "u1" =
      Except.error "user ID mismatch in vote request" := by
  refine ⟨rfl, rfl, ?_, ?_, rfl⟩
  · intro v hv
    simp only [c6after] at hv
    simp only [List.mem_singleton] at hv
    rw [hv]
  · rfl

/-! ### Claim C7: soft delete error taxonomy -/

/-- The comment used in the C7 counterexample. -/
def c7c : Comment :=
  { baseComment with id := "c1", rootID := "r", userID := "alice" }

/-- Counterexample for C7: an absent comment and an ownership mismatch
    produce the identical error value, so `NotFound` and `Unauthorized`
    are not distinguishable to the caller. -/
theorem c7_counterexample :
    deleteCommentRepo [c7c] "missing" "alice" =
      Except.error "comment not found, already deleted, or user not authorized" ∧
    deleteCommentRepo [c7c] "c1" "bob" =
      Except.error "comment not found, already deleted, or user not authorized" :=
  ⟨rfl, rfl⟩

/-- Claim C7 as amended: `DeleteComment` fails with the single combined
    error "comment not found, already deleted, or user not authorized"
    whenever the comment is absent, already deleted, or owned by a
    different user — the three cases are not distinguishable — and
    otherwise sets `is_deleted` to true on the matching live row, leaving
    every other row unchanged. -/
theorem c7_delete_single_error (db : List Comment) (id userID : String) :
    ((∀ c ∈ db, ¬(c.id = id ∧ c.userID = userID ∧ c.isDeleted = false)) →
      deleteCommentRepo db id userID =
        Except.error "comment not found, already deleted, or user not authorized") ∧
    ((∃ c ∈ db, c.id = id ∧ c.userID = userID ∧ c.isDeleted = false) →
      deleteCommentRepo db id userID =
        Except.ok (db.map (fun c =>
          if c.id = id && c.userID = userID && !c.isDeleted then
            { c with isDeleted := true }
          else c)) ∧
      List.Forall₂ (fun c c' =>
        ((c.id = id ∧ c.userID = userID ∧ c.isDeleted = false) →
          c' = { c with isDeleted := true }) ∧
        (¬(c.id = id ∧ c.userID = userID ∧ c.isDeleted = false) → c' = c))
        db (db.map (fun c =>
          if c.id = id && c.userID = userID && !c.isDeleted then
            { c with isDeleted := true }
          else c))) := by
  constructor
  · intro h
    unfold deleteCommentRepo
    rw [if_pos]
    rw [List.length_eq_zero]
    unfold deleteHits
    rw [List.filter_eq_nil_iff]
    intro c hc
    simp only [Bool.and_eq_true, decide_eq_true_eq, Bool.not_eq_true']
    exact fun hc2 => h c hc ⟨hc2.1.1, hc2.1.2, hc2.2⟩
  · rintro ⟨c0, hc0, h1, h2, h3⟩
    constructor
    · unfold deleteCommentRepo
      rw [if_neg]
      intro hlen
      rw [List.length_eq_zero] at hlen
      unfold deleteHits at hlen
      have := List.filter_eq_nil_iff.mp hlen c0 hc0
      simp only [Bool.and_eq_true, decide_eq_true_eq, Bool.not_eq_true'] at this
      exact this ⟨⟨h1, h2⟩, h3⟩
    · rw [List.forall₂_map_right_iff]
      rw [List.forall₂_same]
      intro c _
      by_cases hc : c.id = id ∧ c.userID = userID ∧ c.isDeleted = false
      · have hb : (c.id = id && c.userID = userID && !c.isDeleted) = true := by
          simp only [Bool.and_eq_true, decide_eq_true_eq, Bool.not_eq_true']
          exact ⟨⟨hc.1, hc.2.1⟩, hc.2.2⟩
        rw [hb]
        exact ⟨fun _ => by simp, fun hn => absurd hc hn⟩
      · have hb : (c.id = id && c.userID = userID && !c.isDeleted) = false := by
          simp only [Bool.and_eq_true, decide_eq_true_eq, Bool.not_eq_true',
            Bool.and_eq_false_iff]
          by_cases h1 : c.id = id
          · by_cases h2 : c.userID = userID
            · by_cases h3 : c.isDeleted = false
              · exact absurd ⟨h1, h2, h3⟩ hc
              · have h3' : c.isDeleted = true := by
                  cases hd : c.isDeleted
                  · exact absurd hd h3
                  · rfl
                right
                simp [h3']
            · left; right; simp [h2]
          · left; left; simp [h1]
        rw [hb]
        exact ⟨fun hy => absurd hy hc, fun _ => by simp⟩

/-- Witness for C7 at concrete inputs: the combined error on an absent ID,
    and a successful delete marking the row. -/
theorem c7_witness :
    deleteCommentRepo [c7c] "nope" "alice" =
      Except.error "comment not found, already deleted, or user not authorized" ∧
    deleteCommentRepo [c7c] "c1" "alice" =
      Except.ok [{ c7c with isDeleted := true }] := by
  constructor
  · exact (c7_delete_single_error [c7c] "nope" "alice").1 (by decide)
  · have h := ((c7_delete_single_error [c7c] "c1" "alice").2
      ⟨c7c, List.mem_singleton.mpr rfl, rfl, rfl, rfl⟩).1
    rw [h]
    rfl

/-! ### Claim C3: score derivation -/

/-- The tallies of comment `cid` agree with the stored vote rows:
    `upvotes`/`downvotes` are the live counts of each type and
    `score = upvotes - downvotes`. -/
def scoresConsistent (st : Store) (cid : String) : Prop :=
  ∀ c ∈ st.comments, c.id = cid →
    c.upvotes = (countVotes st.votes cid 1 : Int) ∧
    c.downvotes = (countVotes st.votes cid (-1) : Int) ∧
    c.score = c.upvotes - c.downvotes

theorem votes_recomputeScore (st : Store) (cid : String) :
    (recomputeScore st cid).votes = st.votes := rfl

theorem scoresConsistent_recomputeScore (st : Store) (cid : String) :
    scoresConsistent (recomputeScore st cid) cid := by
  intro c hc hcid
  rw [votes_recomputeScore]
  simp only [recomputeScore, List.map_map, List.mem_map, Function.comp] at hc
  obtain ⟨a, _, rfl⟩ := hc
  by_cases ha : a.id = cid
  · simp [ha]
  · simp only [ha, if_false] at hcid

/-- Claim C3: for any sequence of vote casts (`UpdateVote`, through the
    upsert plus the `update_comment_score` trigger) and removals
    (`DeleteVote` plus the delete trigger) on one comment, after each
    operation the comment's `score` equals `upvotes - downvotes`, and
    `upvotes`/`downvotes` equal the count of stored vote rows of each type
    for that comment. -/
theorem c3_score_consistency (st : Store) (cid : String) (ops : List VoteOp)
    (h : ops ≠ []) :
    scoresConsistent (List.foldl (applyVoteOp cid) st ops) cid := by
  induction ops generalizing st with
  | nil => exact absurd rfl h
  | cons op rest ih =>
    cases rest with
    | nil =>
      simp only [List.foldl]
      cases op with
      | cast uid vt => exact scoresConsistent_recomputeScore _ cid
      | remove uid => exact scoresConsistent_recomputeScore _ cid
    | cons op2 rest2 =>
      simp only [List.foldl]
      exact ih (applyVoteOp cid st op) (List.cons_ne_nil op2 rest2)

/-- The comment used in the C3 witness. -/
def c3c : Comment := { baseComment with id := "c1", rootID := "r", userID := "owner" }

/-- Witness for C3 at a concrete input. -/
theorem c3_witness :
    scoresConsistent
      (List.foldl (applyVoteOp "c1") { comments := [c3c], votes := [] }
        [VoteOp.cast "u2" 1]) "c1" :=
  c3_score_consistency { comments := [c3c], votes := [] } "c1"
    [VoteOp.cast "u2" 1] (by simp)

/-! ### Claim C8: vote uniqueness -/

/-- Distinct `(comment_id, user_id)` keys across all stored vote rows
    (the schema's `UNIQUE(comment_id, user_id)` constraint). -/
def uniqueVoteKeys (votes : List Vote) : Prop :=
  List.Pairwise (fun v w => ¬(v.commentID = w.commentID ∧ v.userID = w.userID)) votes

theorem uniqueVoteKeys_upsertVote (votes : List Vote) (v : Vote)
    (h : uniqueVoteKeys votes) : uniqueVoteKeys (upsertVote votes v) := by
  unfold upsertVote
  by_cases ha : votes.any (fun w => w.commentID = v.commentID && w.userID = v.userID) = true
  · rw [if_pos ha]
    refine List.Pairwise.map _ ?_ h
    intro a b hab
    by_cases h1 : (a.commentID = v.commentID && a.userID = v.userID) = true <;>
      by_cases h2 : (b.commentID = v.commentID && b.userID = v.userID) = true <;>
      simp only [h1, h2, if_true, if_false] <;> exact hab
  · rw [if_neg ha]
    unfold uniqueVoteKeys
    rw [List.pairwise_append]
    refine ⟨h, List.pairwise_singleton _ _, ?_⟩
    intro a hamem b hbmem
    rw [List.mem_singleton] at hbmem
    subst hbmem
    intro hk
    apply ha
    rw [List.any_eq_true]
    exact ⟨a, hamem, by simp only [Bool.and_eq_true, decide_eq_true_eq]; exact ⟨hk.1, hk.2⟩⟩

theorem exists_key_upsertVote (votes : List Vote) (v : Vote) :
    ∃ w ∈ upsertVote votes v, w.commentID = v.commentID ∧ w.userID = v.userID := by
  unfold upsertVote
  by_cases ha : votes.any (fun w => w.commentID = v.commentID && w.userID = v.userID) = true
  · rw [if_pos ha]
    rw [List.any_eq_true] at ha
    obtain ⟨w, hw, hk⟩ := ha
    simp only [Bool.and_eq_true, decide_eq_true_eq] at hk
    refine ⟨(if w.commentID = v.commentID && w.userID = v.userID then
      { w with voteType := v.voteType } else w), List.mem_map_of_mem _ hw, ?_⟩
    rw [if_pos (by simp only [Bool.and_eq_true, decide_eq_true_eq]; exact hk)]
    exact ⟨hk.1, hk.2⟩
  · rw [if_neg ha]
    exact ⟨v, List.mem_append_right _ (List.mem_singleton.mpr rfl), rfl, rfl⟩

theorem count_keyed_eq_one (cid uid : String) :
    ∀ votes : List Vote, uniqueVoteKeys votes →
    (∃ w ∈ votes, w.commentID = cid ∧ w.userID = uid) →
    (votes.filter (fun w => w.commentID = cid && w.userID = uid)).length = 1 := by
  intro votes
  induction votes with
  | nil =>
    rintro _ ⟨w, hw, _⟩
    cases hw
  | cons a as ih =>
    rintro hu ⟨w, hw, hk⟩
    rcases List.pairwise_cons.mp hu with ⟨ha, has⟩
    by_cases hak : a.commentID = cid ∧ a.userID = uid
    · have hfilter : as.filter (fun w => w.commentID = cid && w.userID = uid) = [] := by
        rw [List.filter_eq_nil_iff]
        intro b hb
        simp only [Bool.and_eq_true, decide_eq_true_eq]
        intro hbk
        exact ha b hb ⟨hak.1.trans hbk.1.symm, hak.2.trans hbk.2.symm⟩
      rw [List.filter_cons_of_pos
        (by simp only [Bool.and_eq_true, decide_eq_true_eq]; exact hak), hfilter]
      rfl
    · have hwas : w ∈ as := by
        rcases List.mem_cons.mp hw with rfl | hmem
        · exact absurd hk hak
        · exact hmem
      rw [List.filter_cons_of_neg
        (by simp only [Bool.and_eq_true, decide_eq_true_eq]; exact hak)]
      exact ih has ⟨w, hwas, hk⟩

theorem keyed_voteType_upsertVote (votes : List Vote) (v : Vote) :
    ∀ w ∈ upsertVote votes v, w.commentID = v.commentID → w.userID = v.userID →
      (votes.any (fun u => u.commentID = v.commentID && u.userID = v.userID) = true →
        w.voteType = v.voteType) := by
  intro w hw h1 h2 hany
  unfold upsertVote at hw
  rw [if_pos hany] at hw
  rw [List.mem_map] at hw
  obtain ⟨u, hu, rfl⟩ := hw
  by_cases hk : (u.commentID = v.commentID && u.userID = v.userID) = true
  · rw [if_pos hk]
  · rw [if_neg hk] at h1 h2 ⊢
    exact absurd (by simp only [Bool.and_eq_true, decide_eq_true_eq]; exact ⟨h1, h2⟩) hk

/-- Claim C8: after every vote operation at most one stored vote per
    `(comment_id, user_id)` remains, and casting two votes with different
    types for the same key leaves exactly one row carrying the latest
    type. -/
theorem c8_vote_uniqueness (st : Store) (cid uid : String) (t1 t2 : Int)
    (h : uniqueVoteKeys st.votes) :
    (∀ op : VoteOp, uniqueVoteKeys ((applyVoteOp cid st op).votes)) ∧
    ((((updateVote (updateVote st cid uid t1) cid uid t2).votes.filter
        (fun w => w.commentID = cid && w.userID = uid)).length = 1) ∧
      ∀ w ∈ (updateVote (updateVote st cid uid t1) cid uid t2).votes,
        w.commentID = cid → w.userID = uid → w.voteType = t2) := by
  have hv1 : (updateVote st cid uid t1).votes =
      upsertVote st.votes { id := "", commentID := cid, userID := uid, voteType := t1 } := rfl
  have hu1 : uniqueVoteKeys (updateVote st cid uid t1).votes := by
    rw [hv1]
    exact uniqueVoteKeys_upsertVote st.votes _ h
  have hv2 : (updateVote (updateVote st cid uid t1) cid uid t2).votes =
      upsertVote (updateVote st cid uid t1).votes
        { id := "", commentID := cid, userID := uid, voteType := t2 } := rfl
  have hu2 : uniqueVoteKeys (updateVote (updateVote st cid uid t1) cid uid t2).votes := by
    rw [hv2]
    exact uniqueVoteKeys_upsertVote _ _ hu1
  have hmem2 := exists_key_upsertVote (updateVote st cid uid t1).votes
    { id := "", commentID := cid, userID := uid, voteType := t2 }
  refine ⟨?_, ?_, ?_⟩
  · intro op
    cases op with
    | cast u vt => exact uniqueVoteKeys_upsertVote st.votes _ h
    | remove u =>
      have : (applyVoteOp cid st (VoteOp.remove u)).votes =
          st.votes.filter (fun w => !(w.commentID = cid && w.userID = u)) := rfl
      rw [this]
      exact List.Pairwise.filter _ h
  · rw [hv2]
    exact count_keyed_eq_one cid uid _
      (uniqueVoteKeys_upsertVote _ _ hu1) hmem2
  · intro w hw h1 h2
    have hany : (updateVote st cid uid t1).votes.any
        (fun u => u.commentID = cid && u.userID = uid) = true := by
      rw [List.any_eq_true]
      obtain ⟨w1, hw1, hk1⟩ := exists_key_upsertVote st.votes
        { id := "", commentID := cid, userID := uid, voteType := t1 }
      exact ⟨w1, by rw [hv1]; exact hw1,
        by simp only [Bool.and_eq_true, decide_eq_true_eq]; exact hk1⟩
    have := keyed_voteType_upsertVote (updateVote st cid uid t1).votes
      { id := "", commentID := cid, userID := uid, voteType := t2 }
      w (by rw [← hv2]; exact hw) h1 h2 hany
    exact this

/-- Witness for C8 at a concrete input. -/
theorem c8_witness :
    ((updateVote (updateVote { comments := [], votes := [] } "c" "u" 1)
        "c" "u" (-1)).votes.filter
      (fun w => w.commentID = "c" && w.userID = "u")).length = 1 :=
  (c8_vote_uniqueness { comments := [], votes := [] } "c" "u" 1 (-1)
    List.Pairwise.nil).2.1

/-! ### Claim C4: path and depth invariant on creation -/

theorem splitPath_no_sep (s : String) (h : '.' ∉ s.data) : splitPath s = [s] := by
  unfold splitPath
  rw [splitChars_of_not_mem '.' s.data h]
  rfl

theorem splitPath_child (a b : String) (h : '.' ∉ b.data) :
    splitPath (a ++ "." ++ b) = splitPath a ++ [b] := by
  unfold splitPath
  have hd : (a ++ "." ++ b).data = a.data ++ '.' :: b.data := by
    rw [String.data_append, String.data_append]
    simp
  rw [hd, splitChars_append_sep '.' b.data h a.data, List.map_append]
  rfl

/-- The path invariant stated by the claim: splitting the materialized path
    on the delimiter yields exactly `depth + 1` IDs whose last element is
    the comment's own ID. -/
def pathOk (c : Comment) : Prop :=
  (splitPath c.path).length = c.depth + 1 ∧
  (splitPath c.path).getLast? = some c.id

theorem getCommentByID_mem (db : List Comment) (id : String) (c : Comment)
    (h : getCommentByID db id = Except.ok c) : c ∈ db := by
  unfold getCommentByID at h
  cases hf : db.find? (fun x => x.id = id && !x.isDeleted) with
  | none => rw [hf] at h; cases h
  | some x =>
    rw [hf] at h
    simp only [Except.ok.injEq] at h
    subst h
    exact List.mem_of_find?_eq_some hf

/-- Claim C4: every comment produced by `CreateComment` satisfies the path
    invariant — provided the parent rows already satisfy it and the
    generated ID contains no delimiter (UUIDs never contain `.`) — with a
    child's path equal to its parent's path plus the delimiter plus the
    child ID and `depth = parent.depth + 1`, and a root-level comment
    having `path = id` and `depth = 0`. -/
theorem c4_path_invariant (db : List Comment) (genID : String)
    (input result : Comment)
    (hok : createCommentRepo db genID input = Except.ok result)
    (hid : '.' ∉ result.id.data)
    (hdb : ∀ p ∈ db, pathOk p) :
    pathOk result ∧
    (input.parentID = none → result.path = result.id ∧ result.depth = 0) ∧
    (∀ pid, input.parentID = some pid →
      ∃ parent, getCommentByID db pid = Except.ok parent ∧ parent ∈ db ∧
        result.path = parent.path ++ "." ++ result.id ∧
        result.depth = parent.depth + 1) := by
  unfold createCommentRepo at hok
  cases hpid : input.parentID with
  | none =>
    rw [hpid] at hok
    simp only [Except.ok.injEq] at hok
    subst hok
    refine ⟨⟨?_, ?_⟩, fun _ => ⟨rfl, rfl⟩, fun pid hpid2 => ?_⟩
    · rw [splitPath_no_sep _ hid]
      rfl
    · rw [splitPath_no_sep _ hid]
      rfl
    · cases hpid2
  | some pid =>
    rw [hpid] at hok
    dsimp only at hok
    cases hget : getCommentByID db pid with
    | error e =>
      rw [hget] at hok
      cases hok
    | ok parent =>
      rw [hget] at hok
      dsimp only at hok
      by_cases hroot : parent.rootID ≠ input.rootID
      · rw [if_pos hroot] at hok
        cases hok
      · rw [if_neg hroot] at hok
        simp only [Except.ok.injEq] at hok
        subst hok
        have hpmem : parent ∈ db := getCommentByID_mem db pid parent hget
        have hpOk := hdb parent hpmem
        refine ⟨⟨?_, ?_⟩, fun hn => ?_, fun pid2 hpid2 => ?_⟩
        · rw [splitPath_child _ _ hid, List.length_append, hpOk.1]
          rfl
        · rw [splitPath_child _ _ hid, List.getLast?_concat]
        · cases hn
        · simp only [Option.some.injEq] at hpid2
          subst hpid2
          exact ⟨parent, hget, hpmem, rfl, rfl⟩

/-- The parent row used in the C4 witness. -/
def c4parent : Comment :=
  { baseComment with id := "a", rootID := "r", userID := "u1", path := "a", depth := 0 }

/-- The create request used in the C4 witness. -/
def c4input : Comment :=
  { baseComment with id := "b", rootID := "r", parentID := some "a", userID := "u2" }

/-- The populated comment returned for the C4 witness. -/
def c4result : Comment :=
  { baseComment with
    id := "b"
    rootID := "r"
    parentID := some "a"
    userID := "u2"
    depth := 1
    path := "a.b" }

instance (c : Comment) : Decidable (pathOk c) :=
  decidable_of_iff ((splitPath c.path).length = c.depth + 1 ∧
    (splitPath c.path).getLast? = some c.id) Iff.rfl

/-- Witness for C4 at a concrete input. -/
theorem c4_witness : pathOk c4result :=
  (c4_path_invariant [c4parent] "g" c4input c4result (by decide)
    (by decide) (by decide)).1

/-! ### Claim C2: paths through soft-deleted ancestors -/

/-- The soft-deleted root ancestor in the C2 counterexample. -/
def c2A : Comment :=
  { baseComment with
    id := "a"
    rootID := "r"
    userID := "u1"
    path := "a"
    depth := 0
    isDeleted := true }

/-- The live reply in the C2 counterexample. -/
def c2B : Comment :=
  { baseComment with
    id := "b"
    rootID := "r"
    parentID := some "a"
    userID := "u2"
    path := "a.b"
    depth := 1 }

/-- Counterexample for C2: the reply's materialized path records the
    soft-deleted ancestor's ID, yet `GetCommentPath` returns only the
    reply — its `NOT is_deleted` filter drops the deleted ancestor, so the
    returned chain is not the full root-to-self chain. -/
theorem c2_counterexample :
    c2A ∈ [c2A, c2B] ∧ (splitPath c2B.path).contains c2A.id = true ∧
    c2A.isDeleted = true ∧
    getCommentPath [c2A, c2B] "b" = Except.ok [c2B] :=
  ⟨by decide, by decide, by decide, by decide⟩

/-- Claim C2 as amended: for a resolvable comment, `GetCommentPath`
    returns exactly the non-deleted comments whose IDs lie on its
    materialized path, ordered by depth; soft-deleted ancestors are
    omitted from the returned chain (the path string itself still records
    their IDs). -/
theorem c2_deleted_ancestors_omitted (db : List Comment) (id : String)
    (c0 : Comment) (h : getCommentByID db id = Except.ok c0) :
    ∃ l, getCommentPath db id = Except.ok l ∧
      (∀ c, c ∈ l ↔ (c ∈ db ∧ c.id ∈ splitPath c0.path ∧ c.isDeleted = false)) ∧
      List.Pairwise (fun a b : Comment => a.depth ≤ b.depth) l := by
  have hne : ¬ splitPath c0.path = [] := by
    unfold splitPath
    intro hx
    exact splitChars_ne_nil '.' c0.path.data (List.map_eq_nil_iff.mp hx)
  refine ⟨sortLe depthLe (db.filter (fun c =>
    (splitPath c0.path).contains c.id && !c.isDeleted)), ?_, ?_, ?_⟩
  · unfold getCommentPath
    rw [h]
    dsimp only
    rw [if_neg hne]
  · intro c
    rw [mem_sortLe, List.mem_filter]
    simp only [Bool.and_eq_true, Bool.not_eq_true', List.elem_iff]
  · have hp := pairwise_sortLe depthLe
      (fun a b => by
        unfold depthLe
        rcases Nat.le_total a.depth b.depth with h1 | h1 <;> simp [h1])
      (fun a b c hab hbc => by
        unfold depthLe at *
        simp only [decide_eq_true_eq] at *
        omega)
      (db.filter (fun c => (splitPath c0.path).contains c.id && !c.isDeleted))
    exact hp.imp (fun hab => by simpa [depthLe] using hab)

/-- Witness for C2 at a concrete input. -/
theorem c2_witness :
    getCommentPath [c2A, c2B] "b" = Except.ok [c2B] ∧
    List.Pairwise (fun a b : Comment => a.depth ≤ b.depth) [c2B] := by
  obtain ⟨l, hl, _, hp⟩ := c2_deleted_ancestors_omitted [c2A, c2B] "b" c2B (by decide)
  have h2 : getCommentPath [c2A, c2B] "b" = Except.ok [c2B] := by decide
  refine ⟨h2, ?_⟩
  rw [hl] at h2
  rw [Except.ok.inj h2] at hp
  exact hp

/-! ### Claim C5: filtered listing semantics -/

/-- The filter used in the C5 counterexample: requests only edited
    comments. -/
def c5filter : CommentFilter := { rootID := some "r", isEdited := some true }

/-- The never-edited comment of the C5 counterexample. -/
def c5c : Comment :=
  { baseComment with
    id := "e"
    rootID := "r"
    userID := "u" }

/-- Counterexample for C5: with `is_edited = true` requested, the
    never-edited comment is returned anyway (`GetComments` never reads the
    `IsEdited`/`MinEdits`/`MaxEdits` filter fields), and the sort keys
    `edit_count` and `content_updated_at` are not honoured — the sort
    switch falls back to `created_at` for them. -/
theorem c5_counterexample :
    c5filter.isEdited = some true ∧ c5c.isEdited = false ∧
    getComments c5filter [c5c] = [c5c] ∧
    sortColumn "edit_count" = "created_at" ∧
    sortColumn "content_updated_at" = "created_at" :=
  ⟨rfl, rfl, by decide, by decide, by decide⟩

/-- Claim C5 as amended: `GetComments` returns exactly the non-deleted
    comments matching the `root_id`/`user_id`/`parent_id`/`max_depth`
    filters — the edit-status filters are ignored — ordered by the
    requested sort order (descending unless `sort_order = "asc"`) on a
    sort key limited to `score`, `created_at` and `updated_at`, any other
    requested key (including `content_updated_at` and `edit_count`)
    falling back to `created_at`. -/
theorem c5_list_semantics (f : CommentFilter) (db : List Comment)
    (hl : f.limit = none) (ho : f.offset = none) :
    (∀ c, c ∈ getComments f db ↔ (c ∈ db ∧ matchesGetComments f c = true)) ∧
    List.Pairwise (fun a b => commentLe f a b = true) (getComments f db) ∧
    (sortColumn f.sortBy = "score" ∨ sortColumn f.sortBy = "created_at" ∨
      sortColumn f.sortBy = "updated_at") := by
  have hg : getComments f db =
      sortLe (commentLe f) (db.filter (matchesGetComments f)) := by
    unfold getComments
    rw [hl, ho]
  refine ⟨?_, ?_, ?_⟩
  · intro c
    rw [hg, mem_sortLe, List.mem_filter]
  · rw [hg]
    apply pairwise_sortLe
    · intro a b
      unfold commentLe
      by_cases hasc : f.sortOrder = "asc" <;>
        simp only [hasc, if_true, if_false, decide_eq_true_eq] <;> omega
    · intro a b c hab hbc
      unfold commentLe at *
      by_cases hasc : f.sortOrder = "asc" <;>
        simp only [hasc, if_true, if_false, decide_eq_true_eq] at * <;> omega
  · unfold sortColumn
    by_cases h1 : f.sortBy = "score"
    · left
      simp [h1]
    · by_cases h2 : f.sortBy = "created_at"
      · right; left
        simp [h2]
      · by_cases h3 : f.sortBy = "updated_at"
        · right; right
          simp [h1, h2, h3]
        · right; left
          simp [h1, h2, h3]

/-- The pagination-free filter used in the C5 witness. -/
def c5wf : CommentFilter := { rootID := some "r" }

/-- Witness for C5 at a concrete input. -/
theorem c5_witness :
    c5c ∈ getComments c5wf [c5c] ∧
    List.Pairwise (fun a b => commentLe c5wf a b = true) (getComments c5wf [c5c]) := by
  obtain ⟨hmem, hp, _⟩ := c5_list_semantics c5wf [c5c] rfl rfl
  exact ⟨(hmem c5c).mpr ⟨by decide, by decide⟩, hp⟩

/-! ### Claim C1: tree assembly and orphaned comments -/

theorem treeMembers_node (c : Comment) (ch : List CommentTree) :
    treeMembers (CommentTree.node c ch) = c :: (ch.map treeMembers).flatten := by
  rw [treeMembers]
  rw [List.attach_map_val ch treeMembers]

theorem mem_forestMembers (ts : List CommentTree) (c : Comment) :
    c ∈ forestMembers ts ↔ ∃ t ∈ ts, c ∈ treeMembers t := by
  unfold forestMembers
  rw [List.mem_flatten]
  constructor
  · rintro ⟨l, hl, hc⟩
    rw [List.mem_map] at hl
    obtain ⟨t, ht, rfl⟩ := hl
    exact ⟨t, ht, hc⟩
  · rintro ⟨t, ht, hc⟩
    exact ⟨treeMembers t, List.mem_map_of_mem _ ht, hc⟩

theorem self_mem_buildNode (comments : List Comment) (fuel : Nat) (x : Comment) :
    x ∈ treeMembers (buildNode comments fuel x) := by
  cases fuel with
  | zero =>
    rw [show buildNode comments 0 x = CommentTree.node x [] from rfl,
      treeMembers_node]
    exact List.mem_cons_self _ _
  | succ n =>
    rw [show buildNode comments (n + 1) x = CommentTree.node x
      ((comments.filter (fun d => d.parentID = some x.id)).map
        (buildNode comments n)) from rfl, treeMembers_node]
    exact List.mem_cons_self _ _

theorem orphan_not_mem_buildNode (comments : List Comment) (c : Comment)
    (p : String) (hcp : c.parentID = some p)
    (hp : ∀ d ∈ comments, d.id ≠ p) :
    ∀ (fuel : Nat) (x : Comment), x ∈ comments → c ≠ x →
      c ∉ treeMembers (buildNode comments fuel x) := by
  intro fuel
  induction fuel with
  | zero =>
    intro x hx hne hmem
    rw [show buildNode comments 0 x = CommentTree.node x [] from rfl,
      treeMembers_node] at hmem
    rcases List.mem_cons.mp hmem with hceq | hrest
    · exact hne hceq
    · simp at hrest
  | succ n ih =>
    intro x hx hne hmem
    rw [show buildNode comments (n + 1) x = CommentTree.node x
      ((comments.filter (fun d => d.parentID = some x.id)).map
        (buildNode comments n)) from rfl, treeMembers_node] at hmem
    rcases List.mem_cons.mp hmem with hceq | hrest
    · exact hne hceq
    · rw [List.mem_flatten] at hrest
      obtain ⟨l, hl, hcl⟩ := hrest
      rw [List.mem_map] at hl
      obtain ⟨t, ht, rfl⟩ := hl
      rw [List.mem_map] at ht
      obtain ⟨d, hd, rfl⟩ := ht
      have hdmem : d ∈ comments := (List.mem_filter.mp hd).1
      have hdpar : d.parentID = some x.id := by
        have h2 := (List.mem_filter.mp hd).2
        simpa using h2
      by_cases hcd : c = d
      · subst hcd
        rw [hcp] at hdpar
        simp only [Option.some.injEq] at hdpar
        exact hp x hx hdpar.symm
      · exact ih d hdmem hcd hcl

/-- The deleted parent in the C1 counterexample. -/
def c1A : Comment :=
  { baseComment with
    id := "a"
    rootID := "r"
    userID := "u1"
    path := "a"
    depth := 0
    isDeleted := true }

/-- The fetched reply whose parent is missing from the fetched list. -/
def c1B : Comment :=
  { baseComment with
    id := "b"
    rootID := "r"
    parentID := some "a"
    userID := "u2"
    path := "a.b"
    depth := 1 }

/-- Counterexample for C1: the reply's parent is soft-deleted, hence
    absent from the fetched flat list; the reply itself is fetched, yet
    `GetCommentTree` returns an empty forest — the comment is silently
    dropped instead of becoming a tree root. -/
theorem c1_counterexample :
    c1B ∈ getComments
      { rootID := some "r", maxDepth := some 10, sortBy := "score" }
      [c1A, c1B] ∧
    getCommentTreeRepo [c1A, c1B] "r" 10 "score" = [] :=
  ⟨by decide, rfl⟩

/-- Claim C1 as amended: in the forest assembled by `buildCommentTree`,
    a fetched comment with a nil `parent_id` does appear as a root, but a
    fetched comment whose `parent_id` names a comment not present in the
    fetched list (for example a soft-deleted parent) appears nowhere in
    the returned forest — it is silently dropped, not promoted to a
    root. -/
theorem c1_orphans_dropped (comments : List Comment) :
    (∀ c ∈ comments, c.parentID = none →
      c ∈ forestMembers (buildCommentTree comments)) ∧
    (∀ c ∈ comments, ∀ p, c.parentID = some p →
      (∀ d ∈ comments, d.id ≠ p) →
      c ∉ forestMembers (buildCommentTree comments)) := by
  constructor
  · intro c hc hnone
    rw [mem_forestMembers]
    refine ⟨buildNode comments comments.length c, ?_,
      self_mem_buildNode comments comments.length c⟩
    unfold buildCommentTree
    exact List.mem_map_of_mem _
      (List.mem_filter.mpr ⟨hc, by simp [hnone]⟩)
  · intro c hc p hcp hp hmem
    rw [mem_forestMembers] at hmem
    obtain ⟨t, ht, hct⟩ := hmem
    unfold buildCommentTree at ht
    rw [List.mem_map] at ht
    obtain ⟨r, hr, rfl⟩ := ht
    have hrmem : r ∈ comments := (List.mem_filter.mp hr).1
    have hrnone : r.parentID = none := by
      have h2 := (List.mem_filter.mp hr).2
      simpa [Option.isNone_iff_eq_none] using h2
    have hcr : c ≠ r := by
      intro h2
      rw [h2, hrnone] at hcp
      cases hcp
    exact orphan_not_mem_buildNode comments c p hcp hp
      comments.length r hrmem hcr hct

/-- The live root in the C1 witness. -/
def c1root : Comment :=
  { baseComment with
    id := "x"
    rootID := "r"
    userID := "u1"
    path := "x" }

/-- The orphaned reply in the C1 witness: its parent "z" is not among the
    fetched comments. -/
def c1orphan : Comment :=
  { baseComment with
    id := "y"
    rootID := "r"
    parentID := some "z"
    userID := "u2"
    path := "z.y"
    depth := 1 }

/-- Witness for C1 at a concrete input. -/
theorem c1_witness :
    c1root ∈ forestMembers (buildCommentTree [c1root, c1orphan]) ∧
    c1orphan ∉ forestMembers (buildCommentTree [c1root, c1orphan]) := by
  have h := c1_orphans_dropped [c1root, c1orphan]
  exact ⟨h.1 c1root (by decide) rfl,
    h.2 c1orphan (by decide) "z" rfl (by decide)⟩

end Commentific
